import Mathlib

/-!
Verification development for the STR pricing week-mapping engine
(`src/utils/weekMapping.js`, `src/utils/calculations.js`, `src/utils/holidays.js`).

Modelling conventions (shallow embedding):
* Calendar dates are integer day numbers (days since 1970-01-01, local civil
  calendar).  All date arithmetic in the source works at day granularity
  (`new Date(y,m,d)` values, `setDate`, `getDay`, `getMonth`, ...), so a day
  number is a faithful representation.  Time-of-day and DST effects are
  abstracted away (the spec declares timezone handling out of scope).
* JavaScript price values (strings, numbers, `undefined`) are modelled by
  `JSVal`; an absent object field is `Option.none`.
* `NaN` results of integer parsing are modelled by `Option.none`.
* JS loops whose iteration count is bounded by a constant (day-of-month
  scans, week generation) are implemented with an explicit fuel that
  provably dominates the JS iteration count.
-/

/-- A JavaScript value as it occurs in price fields: a string, a number, or
`undefined`. -/
inductive JSVal where
  | str (s : String)
  | num (n : Int)
  | undefVal
deriving DecidableEq, Repr

/-- JS truthiness test for an optional price value (`!x` in the source):
`undefined`, `null`, the empty string and the number 0 are falsy. -/
def jsFalsy : Option JSVal → Bool
  | none => true
  | some .undefVal => true
  | some (.str s) => s = ""
  | some (.num n) => n = 0

/-- JS `String(x)` coercion for a `JSVal`. -/
def jsValStr : JSVal → String
  | .str s => s
  | .num n => toString n
  | .undefVal => "undefined"

/-- JS `String(x)` for a possibly-absent value (absent renders as
"undefined" in template literals). -/
def jsValStrOf : Option JSVal → String
  | none => "undefined"
  | some v => jsValStr v

/-- JS `a || b` on price values. -/
def jsValOr (a b : JSVal) : JSVal :=
  if jsFalsy (some a) then b else a

/-- JS `a || b` on optional strings (used for `weekKey || key`). -/
def jsStrOr (a b : Option String) : Option String :=
  match a with
  | some s => if s = "" then b else some s
  | none => b

/-! ## Calendar-day arithmetic (Howard Hinnant's civil-calendar algorithms) -/

/-- Day number of the civil date `(y, m, d)` with `m ∈ [1,12]`, days counted
from 1970-01-01. -/
def daysFromCivil (y m d : Int) : Int :=
  let y1 := if m ≤ 2 then y - 1 else y
  let era := Int.fdiv y1 400
  let yoe := y1 - era * 400
  let mp : Int := if m > 2 then m - 3 else m + 9
  let doy := Int.ediv (153 * mp + 2) 5 + d - 1
  let doe := yoe * 365 + Int.ediv yoe 4 - Int.ediv yoe 100 + doy
  era * 146097 + doe - 719468

/-- Inverse of `daysFromCivil`: year, month (1..12) and day of month of a
day number. -/
def civilFromDays (z0 : Int) : Int × Int × Int :=
  let z := z0 + 719468
  let era := Int.fdiv z 146097
  let doe := z - era * 146097
  let yoe := Int.ediv (doe - Int.ediv doe 1460 + Int.ediv doe 36524 - Int.ediv doe 146096) 365
  let y := yoe + era * 400
  let doy := doe - (365 * yoe + Int.ediv yoe 4 - Int.ediv yoe 100)
  let mp := Int.ediv (5 * doy + 2) 153
  let d := doy - Int.ediv (153 * mp + 2) 5 + 1
  let m := if mp < 10 then mp + 3 else mp - 9
  (if m ≤ 2 then y + 1 else y, m, d)

/-- Model of `Date.prototype.getFullYear`. -/
def getFullYear (z : Int) : Int := (civilFromDays z).1

/-- Model of `Date.prototype.getMonth` (0-indexed month). -/
def getMonth (z : Int) : Int := (civilFromDays z).2.1 - 1

/-- Model of `Date.prototype.getDate` (day of month). -/
def getDate (z : Int) : Int := (civilFromDays z).2.2

/-- Model of `Date.prototype.getDay`: 0 = Sunday .. 6 = Saturday.  Day 0
(1970-01-01) was a Thursday. -/
def getDay (z : Int) : Int := Int.emod (z + 4) 7

/-- Model of `new Date(year, month, day)` with JS month/day overflow normalisation and
the JS two-digit-year rule (years 0..99 mean 1900..1999). -/
def jsDate (y m d : Int) : Int :=
  let y0 := if 0 ≤ y ∧ y ≤ 99 then y + 1900 else y
  let ym := y0 + Int.fdiv m 12
  let mn := Int.emod m 12
  daysFromCivil ym (mn + 1) 1 + (d - 1)

/-- Model of `Math.round(a / 7)` for an integer `a` (round half toward +∞). -/
def jsRoundDiv7 (a : Int) : Int := Int.fdiv (2 * a + 7) 14

/-- Model of `Math.round((a + b) / 2)` for integers `a`, `b`. -/
def jsRoundHalfSum (a b : Int) : Int := Int.fdiv (a + b + 1) 2

/-! ## String formatting helpers from holidays.js -/

/-- Left-pad a (month/day) number to two digits, as
`String(n).padStart(2, '0')`. -/
def pad2 (n : Int) : String :=
  let s := toString n
  if s.length < 2 then "0" ++ s else s

/-- Model of `weekKey(date)`: the canonical `YYYY-MM-DD` key of a day. -/
def weekKey (z : Int) : String :=
  let c := civilFromDays z
  s!"{c.1}-{pad2 c.2.1}-{pad2 c.2.2}"

/-- en-US short month names used by `toLocaleDateString`. -/
def monthShortName (m : Int) : String :=
  (["Jan", "Feb", "Mar", "Apr", "May", "Jun",
    "Jul", "Aug", "Sep", "Oct", "Nov", "Dec"].getD (m - 1).toNat "Jan")

/-- Model of `formatDateShort(date)`: "Mon D", e.g. "May 26". -/
def formatDateShort (z : Int) : String :=
  let c := civilFromDays z
  s!"{monthShortName c.2.1} {c.2.2}"

/-- Model of `formatWeekRange(start, end)`: "Mon D - Mon D". -/
def formatWeekRange (a b : Int) : String :=
  s!"{formatDateShort a} - {formatDateShort b}"

/-! ## Integer parsing and price parsing -/

/-- Value of a nonempty digit run. -/
def digitsVal (ds : List Char) : Int :=
  ds.foldl (fun acc c => acc * 10 + ((c.toNat : Int) - 48)) 0

/-- Leading digit run of a character list, `none` when there is none
(JS `NaN`). -/
def digitsM (cs : List Char) : Option Int :=
  let ds := cs.takeWhile (·.isDigit)
  if ds.isEmpty then none else some (digitsVal ds)

/-- JS `parseInt(s)` (radix 10): skip leading whitespace, optional sign,
parse the maximal digit prefix; `none` models `NaN`. -/
def parseIntM (s : String) : Option Int :=
  match s.toList.dropWhile (·.isWhitespace) with
  | '-' :: rest => (digitsM rest).map (fun n => -n)
  | '+' :: rest => digitsM rest
  | cs => digitsM cs

/-- Strip `$` and `,` characters (`String(x).replace(/[$,]/g, '')`). -/
def cleanPrice (s : String) : String :=
  String.mk (s.toList.filter (fun c => c ≠ '$' ∧ c ≠ ','))

/-- Model of `parsePrice` from `calculations.js`: returns 0 for falsy input and for
non-numeric content (`parseInt(...) || 0`); never NaN. -/
def calcParsePrice (p : Option JSVal) : Option Int :=
  if jsFalsy p then some 0
  else some ((parseIntM (cleanPrice (jsValStrOf p))).getD 0)

/-- The internal `parsePrice` of `weekMapping.js`: NaN (`none`) for falsy
input and for non-numeric content, and also for a parsed value of 0
(`parseInt(...) || NaN`). -/
def wmParsePrice (p : Option JSVal) : Option Int :=
  if jsFalsy p then none
  else match parseIntM (cleanPrice (jsValStrOf p)) with
    | none => none
    | some v => if v = 0 then none else some v

/-- Insert thousands separators into a reversed digit list. -/
def commaRev : List Char → Nat → List Char
  | [], _ => []
  | c :: rest, k =>
    if k = 3 then ',' :: c :: commaRev rest 1
    else c :: commaRev rest (k + 1)

/-- Model of `Number.prototype.toLocaleString()` for integers (en-US grouping). -/
def jsLocaleString (n : Int) : String :=
  if n < 0 then "-" ++ String.mk ((commaRev (toString (-n)).toList.reverse 0).reverse)
  else String.mk ((commaRev (toString n).toList.reverse 0).reverse)

/-- Model of `interpolatePrice(price1, price2)` from `weekMapping.js`: the rounded
mean of the parsed prices formatted as `$x,xxx`, or `price1` when either
parse is NaN. -/
def interpolatePrice (p1 p2 : Option JSVal) : Option JSVal :=
  match wmParsePrice p1, wmParsePrice p2 with
  | some a, some b => some (.str ("$" ++ jsLocaleString (jsRoundHalfSum a b)))
  | _, _ => p1

/-! ## Commission grossup from calculations.js -/

/-- Model of `calculateListPrice(netPrice, commissionRate)`: `netPrice` unchanged for
`commissionRate >= 1`, otherwise `ceil(netPrice / (1 - commissionRate))`
(the source divides IEEE doubles; the embedding uses exact rationals). -/
def calculateListPrice (netPrice commissionRate : ℚ) : ℚ :=
  if commissionRate ≥ 1 then netPrice
  else (⌈netPrice / (1 - commissionRate)⌉ : ℤ)

/-! ## Holiday calculation from holidays.js -/

/-- A holiday/anchor entry: `{ name, date, type }`.  A `null` date (possible
in JS only when a weekday scan fails, which cannot happen for the six
standard holidays) is represented by day 0, matching `new Date(null)`. -/
structure Holiday where
  name : String
  date : Int
  type : String
deriving DecidableEq, Repr

/-- Backward scan of `getNthWeekdayOfMonth` for `n = -1` (at most 7 steps in
JS; fuel 8 dominates). -/
def lastWeekdayScan (y month weekday : Int) : Nat → Int → Int
  | 0, date => date
  | fuel + 1, date =>
    if getDay (jsDate y month date) = weekday then date
    else lastWeekdayScan y month weekday fuel (date - 1)

/-- Forward scan of `getNthWeekdayOfMonth` for `n ≥ 1`: days 1..31, counting
weekday matches, stopping past the end of the month. -/
def nthWeekdayScan (y month weekday n : Int) : Nat → Int → Int → Option Int
  | 0, _, _ => none
  | fuel + 1, day, count =>
    let d := jsDate y month day
    if getMonth d ≠ month then none
    else if getDay d = weekday then
      if count + 1 = n then some d
      else nthWeekdayScan y month weekday n fuel (day + 1) (count + 1)
    else nthWeekdayScan y month weekday n fuel (day + 1) count

/-- Model of `getNthWeekdayOfMonth(year, month, weekday, n)`. -/
def getNthWeekdayOfMonth (y month weekday n : Int) : Option Int :=
  if n = -1 then
    let lastDay := jsDate y (month + 1) 0
    some (jsDate y month (lastWeekdayScan y month weekday 8 (getDate lastDay)))
  else
    nthWeekdayScan y month weekday n 31 1 0

/-- Model of `getHolidaysForYear(year)`: the six standard holidays, in JS object
insertion order. -/
def getHolidaysForYear (y : Int) : List (String × Holiday) :=
  [("newYearsDay", ⟨"New Year's Day", jsDate y 0 1, "fixed"⟩),
   ("memorialDay", ⟨"Memorial Day", (getNthWeekdayOfMonth y 4 1 (-1)).getD 0, "floating"⟩),
   ("july4th", ⟨"July 4th", jsDate y 6 4, "fixed"⟩),
   ("laborDay", ⟨"Labor Day", (getNthWeekdayOfMonth y 8 1 1).getD 0, "floating"⟩),
   ("thanksgiving", ⟨"Thanksgiving", (getNthWeekdayOfMonth y 10 4 4).getD 0, "floating"⟩),
   ("christmas", ⟨"Christmas", jsDate y 11 25, "fixed"⟩)]

/-- Model of `getWeekContainingDate(date, weekStartDay)`: start day of the rental
week containing a date (end is start + 7).  JS `%` is truncating division
remainder, hence `Int.tmod`. -/
def getWeekContainingDate (z weekStartDay : Int) : Int :=
  z - Int.tmod (getDay z - weekStartDay + 7) 7

/-- Result of `getWeekHolidayRelationship`: the nearest anchor's key and
name, the human-readable label, and the signed week offset. -/
structure AnchorRel where
  key : String
  name : String
  relationship : String
  weeksAway : Int
deriving DecidableEq, Repr

/-- One step of the nearest-anchor fold: keep the candidate with the
strictly smaller `|diffWeeks|` (the first entry always beats the initial
`Infinity`). -/
def relStep (weekStart weekStartDay : Int) (best : Option (String × Holiday × Int))
    (kh : String × Holiday) : Option (String × Holiday × Int) :=
  let hwStart := getWeekContainingDate kh.2.date weekStartDay
  let diffWeeks := jsRoundDiv7 (weekStart - hwStart)
  match best with
  | none => some (kh.1, kh.2, diffWeeks)
  | some b => if diffWeeks.natAbs < b.2.2.natAbs then some (kh.1, kh.2, diffWeeks) else best

/-- Singular/plural suffix in relationship labels. -/
def weekPlural (n : Int) : String := if n > 1 then "s" else ""

/-- Model of `getWeekHolidayRelationship(weekStart, holidays, weekStartDay)`; `none`
exactly when the holiday set is empty (where JS would throw). -/
def getWeekHolidayRelationship (weekStart : Int) (holidays : List (String × Holiday))
    (weekStartDay : Int) : Option AnchorRel :=
  match holidays.foldl (relStep weekStart weekStartDay) none with
  | none => none
  | some (k, h, w) =>
    let label :=
      if w = 0 then s!"{h.name} week"
      else if w > 0 then s!"{w} week{weekPlural w} after {h.name}"
      else s!"{-w} week{weekPlural (-w)} before {h.name}"
    some ⟨k, h.name, label, w⟩

/-- Model of `parseWeekKey(key)`: parse `YYYY-MM-DD` back into a day number
(malformed keys, undefined by contract, read their missing components
as 0). -/
def parseWeekKey (s : String) : Int :=
  let parts := (s.splitOn "-").map (fun p => (parseIntM p).getD 0)
  jsDate (parts.getD 0 0) (parts.getD 1 0 - 1) (parts.getD 2 0)

/-! ## Data model of weekMapping.js -/

/-- A structured `{year, month, day}` start-date object whose fields may be
absent. -/
structure YMDParts where
  year : Option Int
  month : Option Int
  day : Option Int
deriving DecidableEq, Repr

/-- The `start` field of an input source week: an ISO/key string or a
(possibly partial) structured date; an absent `start` is `obj none none
none`. -/
inductive StartVal where
  | str (s : String)
  | obj (year month day : Option Int)
deriving DecidableEq, Repr

/-- An input source-week record. -/
structure SourceWeek where
  start : StartVal
  startDate : Option YMDParts := none
  weekKeyField : Option String := none
  key : Option String := none
  price : JSVal := .undefVal
deriving DecidableEq, Repr

/-- A mapped target week `{ start, end, key }`. -/
structure Target where
  start : Int
  stop : Int
  key : String
deriving DecidableEq, Repr

/-- A `Mapping` record; `none` marks fields the source does not put on the
object (JS `undefined`/absent), and `target = none` is the JS `target:
null` of error mappings. -/
structure Mapping where
  source : Option SourceWeek := none
  sourceStart : Option Int := none
  sourceRange : Option String := none
  target : Option Target := none
  targetRange : Option String := none
  relationship : Option String := none
  holidayKey : Option String := none
  weeksAway : Option Int := none
  proposedPrice : Option JSVal := none
  error : Option String := none
  isGapFill : Bool := false
deriving DecidableEq, Repr

/-- Placeholder used for out-of-bounds list reads. -/
def dummyMapping : Mapping := {}

/-- A custom/holiday anchor from configuration. -/
structure Anchor where
  id : String
  name : String
  type : String
  enabled : Bool
  sourceDate : Option Int := none
  targetDate : Option Int := none
deriving DecidableEq, Repr

/-- Week record produced by `generateWeeksForYear`. -/
structure YearWeek where
  start : Int
  stop : Int
  key : String
deriving DecidableEq, Repr

/-! ## Week generation -/

/-- The generation loop of `generateWeeksForYear` (at most 54 iterations in
JS for any year; fuel 60 dominates). -/
def genWeeksLoop (year : Int) : Nat → Int → List YearWeek
  | 0, _ => []
  | fuel + 1, current =>
    if getFullYear current ≤ year then
      (if getFullYear current = year then [⟨current, current + 7, weekKey current⟩] else [])
        ++ genWeeksLoop year fuel (current + 7)
    else []

/-- Model of `generateWeeksForYear(year, weekStartDay)`. -/
def generateWeeksForYear (year weekStartDay : Int) : List YearWeek :=
  let jan1 := jsDate year 0 1
  let start := jan1 - Int.tmod (getDay jan1 - weekStartDay + 7) 7
  genWeeksLoop year 60 start

/-! ## The week mapper -/

/-- Assoc-list analogue of JS object assignment `obj[key] = v`: overwrite in
place when the key exists, append otherwise (JS string-key insertion
order). -/
def updateAssoc (l : List (String × Holiday)) (k : String) (v : Holiday) :
    List (String × Holiday) :=
  match l with
  | [] => [(k, v)]
  | (k0, v0) :: rest => if k0 = k then (k, v) :: rest else (k0, v0) :: updateAssoc rest k v

/-- Assoc-list lookup (JS property read, `undefined` as `none`). -/
def lookupAssoc (l : List (String × Holiday)) (k : String) : Option Holiday :=
  match l with
  | [] => none
  | (k0, v0) :: rest => if k0 = k then some v0 else lookupAssoc rest k

/-- Model of `allSourceHolidays`: standard holidays of the source year plus every
enabled anchor that has a `sourceDate`. -/
def allSourceHolidaysOf (sourceYear : Int) (anchors : List Anchor) :
    List (String × Holiday) :=
  (anchors.filter (·.enabled)).foldl
    (fun acc a =>
      match a.sourceDate with
      | some dte => updateAssoc acc a.id ⟨a.name, dte, a.type⟩
      | none => acc)
    (getHolidaysForYear sourceYear)

/-- Model of `allTargetHolidays`: standard holidays of the target year plus every
enabled anchor that has a `targetDate`. -/
def allTargetHolidaysOf (targetYear : Int) (anchors : List Anchor) :
    List (String × Holiday) :=
  (anchors.filter (·.enabled)).foldl
    (fun acc a =>
      match a.targetDate with
      | some dte => updateAssoc acc a.id ⟨a.name, dte, a.type⟩
      | none => acc)
    (getHolidaysForYear targetYear)

/-- Resolution of a source week's start date (lines 80-84 of
`weekMapping.js`): a string `start` reads `weekKey || key` through
`parseWeekKey`; otherwise `new Date(start?.year ?? startDate?.year, ...)`.
Missing components, undefined by contract, read as 0. -/
def sourceStartOf (w : SourceWeek) : Int :=
  match w.start with
  | .str _ => parseWeekKey ((jsStrOr w.weekKeyField w.key).getD "")
  | .obj yo mo dy =>
    let y := (yo.orElse (fun _ => w.startDate.bind (·.year))).getD 0
    let m := (mo.orElse (fun _ => w.startDate.bind (·.month))).getD 0
    let d := (dy.orElse (fun _ => w.startDate.bind (·.day))).getD 0
    jsDate y m d

/-- The error message of an unresolvable anchor. -/
def noAnchorError : String := "No matching anchor in target year"

/-- The body of the `sourceWeeks.forEach` loop of `mapWeeksByHolidays`:
`none` only when the anchor set is empty (unreachable from
`mapWeeksByHolidays`, where JS would throw). -/
def mapOneWeek (allSource allTarget : List (String × Holiday)) (weekStartDay : Int)
    (w : SourceWeek) : Option Mapping :=
  let sourceStart := sourceStartOf w
  match getWeekHolidayRelationship sourceStart allSource weekStartDay with
  | none => none
  | some rel =>
    match lookupAssoc allTarget rel.key with
    | none =>
      some { source := some w, sourceStart := some sourceStart, target := none,
             relationship := some rel.relationship, holidayKey := some rel.key,
             weeksAway := some rel.weeksAway, error := some noAnchorError }
    | some th =>
      let targetHolidayWeek := getWeekContainingDate th.date weekStartDay
      let targetWeekStart := targetHolidayWeek + rel.weeksAway * 7
      some { source := some w, sourceStart := some sourceStart,
             sourceRange := some (formatWeekRange sourceStart (sourceStart + 7)),
             target := some ⟨targetWeekStart, targetWeekStart + 7, weekKey targetWeekStart⟩,
             targetRange := some (formatWeekRange targetWeekStart (targetWeekStart + 7)),
             relationship := some rel.relationship, holidayKey := some rel.key,
             weeksAway := some rel.weeksAway, proposedPrice := some w.price }

/-- Model of `mapWeeksByHolidays(sourceWeeks, sourceYear, targetYear, anchors,
weekStartDay)`. -/
def mapWeeksByHolidays (sourceWeeks : List SourceWeek) (sourceYear targetYear : Int)
    (anchors : List Anchor) (weekStartDay : Int) : List Mapping :=
  sourceWeeks.filterMap
    (mapOneWeek (allSourceHolidaysOf sourceYear anchors)
      (allTargetHolidaysOf targetYear anchors) weekStartDay)

/-! ## Conflict data model -/

/-- One entry of a collision conflict's `mappings` array. -/
structure CollisionEntry where
  sourceRange : Option String
  price : JSVal
  relationship : Option String
deriving DecidableEq, Repr

/-- Model of `nearestBefore` / `nearestAfter` info on a gap conflict. -/
structure NeighborInfo where
  range : Option String
  price : Option JSVal
deriving DecidableEq, Repr

/-- A resolution option offered on a conflict. -/
structure ResOption where
  label : String
  value : JSVal
  sourceIndex : Option Int := none
  interpolatedPrice : Option JSVal := none
deriving DecidableEq, Repr

/-- A caller-supplied resolution `{ value, customPrice?, sourceIndex?,
interpolatedPrice? }`. -/
structure Resolution where
  value : JSVal
  customPrice : Option JSVal := none
  sourceIndex : Option Int := none
  interpolatedPrice : Option JSVal := none
deriving DecidableEq, Repr

/-- A conflict record; the three variants (`collision`, `gap`,
`strategy_reversal`) share one JS object shape, with `none` for the fields
a variant does not set. -/
structure Conflict where
  type : String := ""
  targetWeek : Option String := none
  targetRange : Option String := none
  relationship : Option String := none
  mappings : List CollisionEntry := []
  nearestBefore : Option NeighborInfo := none
  nearestAfter : Option NeighborInfo := none
  sourceRange : Option String := none
  price : Option JSVal := none
  sourcePattern : Option String := none
  targetPattern : Option String := none
  description : String := ""
  options : List ResOption := []
  resolved : Bool := false
  resolution : Option Resolution := none
deriving DecidableEq, Repr

/-! ## Conflict detection: collisions -/

/-- Model of `m.source.price` as read when building collision records (a `null`
source, impossible in mapper output, reads as `undefined`). -/
def priceOfSource (m : Mapping) : JSVal :=
  ((m.source).map (·.price)).getD .undefVal

/-- The entry a contributing mapping adds to a collision's `mappings`
array. -/
def collisionEntryOf (m : Mapping) : CollisionEntry :=
  ⟨m.sourceRange, priceOfSource m, m.relationship⟩

/-- Append a mapping to its target-key group, JS `Map` semantics: extend an
existing key's array in place, otherwise append a new key. -/
def addToGroup (acc : List (String × List Mapping)) (k : String) (m : Mapping) :
    List (String × List Mapping) :=
  match acc with
  | [] => [(k, [m])]
  | (k0, g) :: rest =>
    if k0 = k then (k0, g ++ [m]) :: rest else (k0, g) :: addToGroup rest k m

/-- Model of `targetKeyToMappings`: successful mappings grouped by `target.key` in
first-occurrence order. -/
def groupByTarget (ms : List Mapping) : List (String × List Mapping) :=
  ms.foldl
    (fun acc m =>
      match m.target with
      | none => acc
      | some t => addToGroup acc t.key m)
    []

/-- Model of `mappedTargetKeys`: the target keys of all successful mappings
(membership models JS `Set.has`). -/
def mappedTargetKeys (ms : List Mapping) : List String :=
  ms.filterMap (fun m => m.target.map (·.key))

/-- Build one collision conflict for a target key and its ≥2 contributing
mappings. -/
def mkCollision (targetKey : String) (maps : List Mapping) : Conflict :=
  { type := "collision",
    targetWeek := some targetKey,
    targetRange := (maps.head?.bind (·.targetRange)),
    mappings := maps.map collisionEntryOf,
    description :=
      "Both "
        ++ String.intercalate " and " (maps.map (fun m => (m.sourceRange).getD ""))
        ++ " would map to " ++ jsValStrOf ((maps.head?.bind (·.targetRange)).map .str)
        ++ ". Which price should apply?",
    options :=
      (maps.mapIdx (fun i m =>
        { label := "Use " ++ jsValStrOf (m.sourceRange.map .str) ++ " price ("
            ++ jsValStr (priceOfSource m) ++ ")",
          value := priceOfSource m,
          sourceIndex := some (Int.ofNat i) }))
        ++ [{ label := "Enter custom price", value := .str "custom", sourceIndex := some (-1) }],
    resolved := false,
    resolution := none }

/-- The collision pass: one conflict per target-key group of size ≥ 2, in
group-insertion order. -/
def collisionConflicts (ms : List Mapping) : List Conflict :=
  (groupByTarget ms).filterMap
    (fun kg => if kg.2.length > 1 then some (mkCollision kg.1 kg.2) else none)

/-! ## Conflict detection: gaps -/

/-- The fold locating `nearestBefore` and `nearestAfter` among successfully
mapped target weeks, by start-day comparison. -/
def nearestNeighbors (ms : List Mapping) (targetTime : Int) :
    Option Mapping × Option Mapping :=
  ms.foldl
    (fun nbna m =>
      match m.target with
      | none => nbna
      | some t =>
        let nb :=
          match nbna.1 with
          | none => if t.start < targetTime then some m else none
          | some b =>
            if t.start < targetTime ∧ t.start > ((b.target.map (·.start)).getD 0) then some m
            else some b
        let na :=
          match nbna.2 with
          | none => if t.start > targetTime then some m else none
          | some a =>
            if t.start > targetTime ∧ t.start < ((a.target.map (·.start)).getD 0) then some m
            else some a
        (nb, na))
    (none, none)

/-- Build one gap conflict for an unmapped in-season target week. -/
def mkGap (ms : List Mapping) (targetHolidays : List (String × Holiday))
    (weekStartDay : Int) (tw : YearWeek) : Conflict :=
  let rel := getWeekHolidayRelationship tw.start targetHolidays weekStartDay
  let nbna := nearestNeighbors ms tw.start
  let nb := nbna.1
  let na := nbna.2
  { type := "gap",
    targetWeek := some tw.key,
    targetRange := some (formatWeekRange tw.start tw.stop),
    relationship := rel.map (·.relationship),
    nearestBefore := nb.map (fun m => ⟨m.targetRange, m.proposedPrice⟩),
    nearestAfter := na.map (fun m => ⟨m.targetRange, m.proposedPrice⟩),
    description :=
      "No source week maps to " ++ formatWeekRange tw.start tw.stop ++ " ("
        ++ jsValStrOf ((rel.map (·.relationship)).map .str) ++ "). How should we price it?",
    options :=
      ([nb.map (fun m =>
          { label := "Use previous week's price (" ++ jsValStrOf m.proposedPrice ++ ")",
            value := (m.proposedPrice).getD .undefVal : ResOption }),
        na.map (fun m =>
          { label := "Use next week's price (" ++ jsValStrOf m.proposedPrice ++ ")",
            value := (m.proposedPrice).getD .undefVal : ResOption }),
        (match nb, na with
         | some b, some a =>
           some { label := "Interpolate between neighbors",
                  value := .str "interpolate",
                  interpolatedPrice := interpolatePrice b.proposedPrice a.proposedPrice }
         | _, _ => none),
        some { label := "Enter custom price", value := .str "custom" }]).filterMap id,
    resolved := false,
    resolution := none }

/-- The gap pass: one conflict per generated target-year week whose start
month (0-indexed) is in season (3..10) and whose key no mapping targets. -/
def gapConflicts (ms : List Mapping) (allTargetWeeks : List YearWeek)
    (targetHolidays : List (String × Holiday)) (weekStartDay : Int) : List Conflict :=
  allTargetWeeks.filterMap
    (fun tw =>
      if getMonth tw.start < 3 ∨ getMonth tw.start > 10 then none
      else if (mappedTargetKeys ms).contains tw.key then none
      else some (mkGap ms targetHolidays weekStartDay tw))

/-! ## Conflict detection: strategy reversals -/

/-- Start day used by the target-date sort comparator
(`a.target.start.getTime()`). -/
def mStart (m : Mapping) : Int := ((m.target).map (·.start)).getD 0

/-- Insert into a list sorted by `mStart`, keeping earlier elements first
among equal keys (stability of JS `Array.prototype.sort`). -/
def insertByStart (m : Mapping) : List Mapping → List Mapping
  | [] => [m]
  | x :: xs => if mStart x < mStart m then x :: insertByStart m xs else m :: x :: xs

/-- Stable sort by `target.start` ascending, as
`.sort((a, b) => a.target.start.getTime() - b.target.start.getTime())`. -/
def sortByTargetStart (l : List Mapping) : List Mapping :=
  l.foldr insertByStart []

/-- Model of `[...mappings].filter(m => m.target).sort(...)` of the reversal pass. -/
def sortedSuccessful (ms : List Mapping) : List Mapping :=
  sortByTargetStart (ms.filter (fun m => m.target.isSome))

/-- JS `findIndex` on the sorted list, `-1` when absent. -/
def findTargetIdx (sorted : List Mapping) (targetKey : String) : Int :=
  match sorted.findIdx? (fun m => ((m.target.map (·.key)).getD "") == targetKey) with
  | some i => Int.ofNat i
  | none => -1

/-- Build one strategy-reversal conflict. -/
def mkReversal (m : Mapping) (sourcePattern targetPattern : String) : Conflict :=
  { type := "strategy_reversal",
    sourceRange := m.sourceRange,
    targetRange := m.targetRange,
    price := m.proposedPrice,
    sourcePattern := some sourcePattern,
    targetPattern := some targetPattern,
    description :=
      jsValStrOf (m.sourceRange.map .str) ++ " was priced " ++ jsValStrOf m.proposedPrice
        ++ ", which was " ++ sourcePattern ++ " than its neighbors. The proposed "
        ++ jsValStrOf (m.targetRange.map .str) ++ " at " ++ jsValStrOf m.proposedPrice
        ++ " would be " ++ targetPattern
        ++ " than ITS neighbors - the opposite pattern. Is this intentional?",
    options :=
      [{ label := "Keep as mapped (intentional change)", value := .str "keep" },
       { label := "Adjust to maintain relative position", value := .str "adjust" }],
    resolved := false,
    resolution := none }

/-- The decision core of the reversal loop for the mapping at source-list
index `idx`: the (sourcePattern, targetPattern) pair of a detected
reversal, or `none` whenever the JS code `return`s without pushing a
conflict (missing target/price, NaN parses, boundary positions, no
reversal). -/
def reversalCore (ms sorted : List Mapping) (idx : Nat) (m : Mapping) :
    Option (String × String) :=
  if m.target.isNone || jsFalsy m.proposedPrice then none
  else
    match wmParsePrice m.proposedPrice with
    | none => none
    | some currentPrice =>
      match (if idx = 0 then none else ms.get? (idx - 1)), ms.get? (idx + 1) with
      | some sourcePrev, some sourceNext =>
        let prevRaw := jsValOr (priceOfSource sourcePrev) ((sourcePrev.proposedPrice).getD .undefVal)
        let nextRaw := jsValOr (priceOfSource sourceNext) ((sourceNext.proposedPrice).getD .undefVal)
        match wmParsePrice (some prevRaw), wmParsePrice (some nextRaw) with
        | some sourcePrevPrice, some sourceNextPrice =>
          let sourceRelative : ℚ :=
            (currentPrice : ℚ) - ((sourcePrevPrice : ℚ) + (sourceNextPrice : ℚ)) / 2
          let wasAbove := sourceRelative > 100
          let wasBelow := sourceRelative < -100
          if ¬wasAbove ∧ ¬wasBelow then none
          else
            let targetKey := (m.target.map (·.key)).getD ""
            let ti := findTargetIdx sorted targetKey
            if ti ≤ 0 ∨ ti ≥ sorted.length - 1 then none
            else
              match sorted.get? (ti.toNat - 1), sorted.get? (ti.toNat + 1) with
              | some targetPrev, some targetNext =>
                match wmParsePrice targetPrev.proposedPrice,
                    wmParsePrice targetNext.proposedPrice with
                | some targetPrevPrice, some targetNextPrice =>
                  let targetRelative : ℚ :=
                    (currentPrice : ℚ) - ((targetPrevPrice : ℚ) + (targetNextPrice : ℚ)) / 2
                  let isAbove := targetRelative > 100
                  let isBelow := targetRelative < -100
                  if (wasAbove ∧ isBelow) ∨ (wasBelow ∧ isAbove) then
                    some (if wasAbove then "higher" else "lower",
                      if isAbove then "higher" else "lower")
                  else none
                | _, _ => none
              | _, _ => none
        | _, _ => none
      | _, _ => none

/-- The conflict (if any) the reversal loop pushes for the mapping at
source-list index `idx`. -/
def reversalStep (ms sorted : List Mapping) (idx : Nat) (m : Mapping) : Option Conflict :=
  (reversalCore ms sorted idx m).map (fun p => mkReversal m p.1 p.2)

/-- The strategy-reversal pass, in source-list index order. -/
def reversalConflicts (ms : List Mapping) : List Conflict :=
  (ms.mapIdx (fun i m => reversalStep ms (sortedSuccessful ms) i m)).filterMap id

/-- Model of `detectConflicts(mappings, targetYear, weekStartDay)`: collisions, then
gaps, then strategy reversals. -/
def detectConflicts (ms : List Mapping) (targetYear weekStartDay : Int) : List Conflict :=
  collisionConflicts ms
    ++ gapConflicts ms (generateWeeksForYear targetYear weekStartDay)
        (getHolidaysForYear targetYear) weekStartDay
    ++ reversalConflicts ms

/-! ## Resolution application

The source function shallow-copies the mapping array (`[...mappings]`) but
not the mapping objects, splices the copy, and assigns `proposedPrice` on
the shared objects.  The embedding makes object identity explicit: `heap`
is the list of input mapping objects (by input position) and the working
array is a list of heap indices.  `applyResolutionsFull` returns both the
result list and the post-call state of the input objects, so claims about
in-place mutation are expressible. -/

/-- The single field assignment the source performs on a shared mapping
object: `resolvedMappings[i].proposedPrice = v`. -/
def setProposedPrice (m : Mapping) (p : Option JSVal) : Mapping :=
  { m with proposedPrice := p }

/-- Model of `resolvedMappings[i].target?.key === conflict.targetWeek` (an absent
`targetWeek` compares equal to the `undefined` of a null target). -/
def keyMatches (m : Mapping) (tk : Option String) : Bool :=
  match m.target, tk with
  | some t, some k => t.key == k
  | some _, none => false
  | none, none => true
  | none, some _ => false

/-- Model of `conflict.mappings.findIndex(x => x.sourceRange === r)`, `-1` when
absent. -/
def collFindIndex (entries : List CollisionEntry) (r : Option String) : Int :=
  match entries.findIdx? (fun e => e.sourceRange == r) with
  | some i => Int.ofNat i
  | none => -1

/-- The backwards splice loop of the collision branch.  JS iterates the
working array from its last element to its first, threading `kept`;
processing the tail (the later elements) first reproduces that order.
Returns the updated heap, the surviving indices and the final `kept`. -/
def collisionLoop (r : Resolution) (c : Conflict) (heap : List Mapping) :
    List Nat → Bool → List Mapping × List Nat × Bool
  | [], kept => (heap, [], kept)
  | i :: rest, kept =>
    match collisionLoop r c heap rest kept with
    | (heap1, rest1, kept1) =>
      let m := heap1.getD i dummyMapping
      if keyMatches m c.targetWeek then
        if ¬kept1 ∧ r.sourceIndex.isSome then
          if r.sourceIndex.getD 0 = collFindIndex c.mappings m.sourceRange then
            (heap1.set i (setProposedPrice m (some r.value)), i :: rest1, true)
          else
            (heap1, rest1, kept1)
        else if r.value = .str "custom" then
          (heap1.set i (setProposedPrice m r.customPrice), i :: rest1, true)
        else
          (heap1, i :: rest1, kept1)
      else
        (heap1, i :: rest1, kept1)

/-- The synthesized mapping of a resolved gap conflict. -/
def gapFillMapping (c : Conflict) (r : Resolution) : Mapping :=
  let targetStart := parseWeekKey ((c.targetWeek).getD "")
  let price : Option JSVal :=
    if r.value = .str "interpolate" then r.interpolatedPrice
    else if r.value = .str "custom" then r.customPrice
    else some r.value
  { source := none, sourceStart := none, sourceRange := some "N/A (gap fill)",
    target := some ⟨targetStart, targetStart + 7, (c.targetWeek).getD ""⟩,
    targetRange := c.targetRange, relationship := c.relationship,
    proposedPrice := price, isGapFill := true }

/-- Processing of one conflict in the `conflicts.forEach` loop.  State:
heap of input objects, surviving working-array indices, accumulated
`additionalWeeks`. -/
def applyStep (st : List Mapping × List Nat × List Mapping) (c : Conflict) :
    List Mapping × List Nat × List Mapping :=
  if ¬c.resolved then st
  else
    match c.resolution with
    | none => st
    | some r =>
      if c.type = "collision" then
        match collisionLoop r c st.1 st.2.1 false with
        | (heap1, idxs1, _) => (heap1, idxs1, st.2.2)
      else if c.type = "gap" then
        (st.1, st.2.1, st.2.2 ++ [gapFillMapping c r])
      else st

/-- Model of `applyResolutions` together with the post-call state of the input
mapping objects (first component: the returned list; second: the input
objects after mutation). -/
def applyResolutionsFull (ms : List Mapping) (cs : List Conflict) :
    List Mapping × List Mapping :=
  match cs.foldl applyStep (ms, List.range ms.length, []) with
  | (heap, idxs, additional) =>
    (sortByTargetStart
       (((idxs.map (fun i => heap.getD i dummyMapping)) ++ additional).filter
         (fun m => m.target.isSome)),
     heap)

/-- The return value of `applyResolutions(mappings, conflicts)`. -/
def applyResolutions (ms : List Mapping) (cs : List Conflict) : List Mapping :=
  (applyResolutionsFull ms cs).1

/-- The state of the input mapping objects after `applyResolutions` ran
(equal to the input list when nothing was mutated in place). -/
def inputsAfterApply (ms : List Mapping) (cs : List Conflict) : List Mapping :=
  (applyResolutionsFull ms cs).2

/-! ## Helper lemmas: the mapper never skips a week -/

/-- Placeholder used for out-of-bounds reads of source-week lists. -/
def dummySourceWeek : SourceWeek := { start := .obj none none none }

/-- The nearest-anchor key the mapper resolves for a source week. -/
def nearestAnchorKey (allSource : List (String × Holiday)) (weekStartDay : Int)
    (w : SourceWeek) : Option String :=
  (getWeekHolidayRelationship (sourceStartOf w) allSource weekStartDay).map (·.key)

theorem getHolidaysForYear_ne_nil (y : Int) : getHolidaysForYear y ≠ [] := by
  simp [getHolidaysForYear]

theorem updateAssoc_ne_nil (l : List (String × Holiday)) (k : String) (v : Holiday) :
    updateAssoc l k v ≠ [] := by
  cases l with
  | nil => simp [updateAssoc]
  | cons h t =>
    simp only [updateAssoc]
    split <;> simp

theorem foldl_anchor_ne_nil (f : Anchor → Option Int)
    (l : List Anchor) (acc : List (String × Holiday)) (h : acc ≠ []) :
    l.foldl
      (fun acc a =>
        match f a with
        | some dte => updateAssoc acc a.id ⟨a.name, dte, a.type⟩
        | none => acc)
      acc ≠ [] := by
  induction l generalizing acc with
  | nil => exact h
  | cons a rest ih =>
    simp only [List.foldl_cons]
    cases hf : f a with
    | none => exact ih acc h
    | some dte => exact ih _ (updateAssoc_ne_nil acc a.id ⟨a.name, dte, a.type⟩)

theorem allSourceHolidaysOf_ne_nil (sourceYear : Int) (anchors : List Anchor) :
    allSourceHolidaysOf sourceYear anchors ≠ [] :=
  foldl_anchor_ne_nil (·.sourceDate) _ _ (getHolidaysForYear_ne_nil sourceYear)

theorem allTargetHolidaysOf_ne_nil (targetYear : Int) (anchors : List Anchor) :
    allTargetHolidaysOf targetYear anchors ≠ [] :=
  foldl_anchor_ne_nil (·.targetDate) _ _ (getHolidaysForYear_ne_nil targetYear)

theorem relStep_some_isSome (ws wsd : Int) (b : String × Holiday × Int)
    (kh : String × Holiday) : (relStep ws wsd (some b) kh).isSome := by
  simp only [relStep]
  split <;> simp

theorem foldl_relStep_isSome (ws wsd : Int) (l : List (String × Holiday))
    (init : Option (String × Holiday × Int)) (h : init.isSome ∨ l ≠ []) :
    (l.foldl (relStep ws wsd) init).isSome := by
  induction l generalizing init with
  | nil =>
    rcases h with h | h
    · exact h
    · exact absurd rfl h
  | cons kh rest ih =>
    simp only [List.foldl_cons]
    apply ih
    left
    cases init with
    | some b => exact relStep_some_isSome ws wsd b kh
    | none => simp [relStep]

theorem getWeekHolidayRelationship_isSome (ws : Int) (holidays : List (String × Holiday))
    (wsd : Int) (h : holidays ≠ []) :
    (getWeekHolidayRelationship ws holidays wsd).isSome := by
  unfold getWeekHolidayRelationship
  have := foldl_relStep_isSome ws wsd holidays none (Or.inr h)
  cases hf : holidays.foldl (relStep ws wsd) none with
  | none => rw [hf] at this; simp at this
  | some b => simp

theorem mapOneWeek_isSome (allSource allTarget : List (String × Holiday))
    (wsd : Int) (w : SourceWeek) (h : allSource ≠ []) :
    (mapOneWeek allSource allTarget wsd w).isSome := by
  unfold mapOneWeek
  have hrel := getWeekHolidayRelationship_isSome (sourceStartOf w) allSource wsd h
  cases hr : getWeekHolidayRelationship (sourceStartOf w) allSource wsd with
  | none => rw [hr] at hrel; simp at hrel
  | some rel =>
    simp only [hr]
    cases lookupAssoc allTarget rel.key <;> simp

theorem filterMap_eq_map_of_isSome {α β : Type} (f : α → Option β) (d : β)
    (l : List α) (h : ∀ a ∈ l, (f a).isSome) :
    l.filterMap f = l.map (fun a => (f a).getD d) := by
  induction l with
  | nil => rfl
  | cons a rest ih =>
    have ha := h a (List.mem_cons_self a rest)
    cases hf : f a with
    | none => rw [hf] at ha; simp at ha
    | some b =>
      simp only [List.filterMap_cons, List.map_cons, hf, Option.getD_some]
      rw [ih (fun x hx => h x (List.mem_cons_of_mem a hx))]

/-- Model of `mapWeeksByHolidays` is the elementwise map of `mapOneWeek` (no week is
ever skipped). -/
theorem mapWeeksByHolidays_eq_map (weeks : List SourceWeek) (sy ty : Int)
    (anchors : List Anchor) (wsd : Int) :
    mapWeeksByHolidays weeks sy ty anchors wsd
      = weeks.map (fun w =>
          (mapOneWeek (allSourceHolidaysOf sy anchors) (allTargetHolidaysOf ty anchors)
            wsd w).getD dummyMapping) := by
  unfold mapWeeksByHolidays
  exact filterMap_eq_map_of_isSome _ dummyMapping weeks
    (fun w _ => mapOneWeek_isSome _ _ wsd w (allSourceHolidaysOf_ne_nil sy anchors))

theorem getD_map_of_lt {α β : Type} (f : α → β) (l : List α) (i : Nat)
    (d : β) (d' : α) (h : i < l.length) :
    (l.map f).getD i d = f (l.getD i d') := by
  induction l generalizing i with
  | nil => simp at h
  | cons a rest ih =>
    cases i with
    | zero => rfl
    | succ j =>
      simp only [List.map_cons, List.getD_cons_succ]
      exact ih j (by simpa using h)

/-- Positionwise description of the mapper's output. -/
theorem mapWeeksByHolidays_getD (weeks : List SourceWeek) (sy ty : Int)
    (anchors : List Anchor) (wsd : Int) (i : Nat) (h : i < weeks.length) :
    (mapWeeksByHolidays weeks sy ty anchors wsd).getD i dummyMapping
      = (mapOneWeek (allSourceHolidaysOf sy anchors) (allTargetHolidaysOf ty anchors)
          wsd (weeks.getD i dummySourceWeek)).getD dummyMapping := by
  rw [mapWeeksByHolidays_eq_map]
  exact getD_map_of_lt _ weeks i dummyMapping dummySourceWeek h

/-! ## Claim C3: commission grossup -/

/-- Claim C3: for every netPrice and every commissionRate < 1,
`calculateListPrice(netPrice, commissionRate)` is
`ceil(netPrice / (1 - commissionRate))`; for commissionRate ≥ 1 it returns
netPrice unchanged; in particular `calculateListPrice(3500, 0.155) = 4143`
and `calculateListPrice(3000, 0) = 3000`. -/
theorem claim_C3 (netPrice commissionRate : ℚ) :
    (commissionRate < 1 →
      calculateListPrice netPrice commissionRate
        = (⌈netPrice / (1 - commissionRate)⌉ : ℤ)) ∧
    (1 ≤ commissionRate → calculateListPrice netPrice commissionRate = netPrice) ∧
    calculateListPrice 3500 (155 / 1000) = 4143 ∧
    calculateListPrice 3000 0 = 3000 := by
  refine ⟨fun h => ?_, fun h => ?_, ?_, ?_⟩
  · simp [calculateListPrice, not_le.mpr h]
  · simp [calculateListPrice, h]
  · have hceil : (⌈(3500 : ℚ) / (1 - 155 / 1000)⌉ : ℤ) = 4143 := by
      rw [show (3500 : ℚ) / (1 - 155 / 1000) = 700000 / 169 by norm_num]
      rw [Int.ceil_eq_iff]
      constructor <;> norm_num
    rw [calculateListPrice, if_neg (by norm_num), hceil]
    norm_num
  · rw [calculateListPrice, if_neg (by norm_num)]
    norm_num

/-- Witness for C3 at the spec's concrete inputs. -/
theorem claim_C3_witness :
    ((155 / 1000 : ℚ) < 1 ∧
      calculateListPrice 3500 (155 / 1000)
        = (⌈(3500 : ℚ) / (1 - 155 / 1000)⌉ : ℤ)) ∧
    ((1 : ℚ) ≤ 2 ∧ calculateListPrice 3000 2 = 3000) :=
  ⟨⟨by norm_num, (claim_C3 3500 (155 / 1000)).1 (by norm_num)⟩,
   ⟨by norm_num, (claim_C3 3000 2).2.1 (by norm_num)⟩⟩

/-! ## Claims C4, C5, C10: the week mapper -/

/-- Claim C4: a mapping emitted by `mapWeeksByHolidays` has `target = null`
and `error = "No matching anchor in target year"` exactly when the source
week's nearest anchor key is absent from the target-year anchor set; the
week is neither skipped nor does the call fail. -/
theorem claim_C4 (weeks : List SourceWeek) (sy ty : Int) (anchors : List Anchor)
    (wsd : Int) (i : Nat) (h : i < weeks.length) :
    (((mapWeeksByHolidays weeks sy ty anchors wsd).getD i dummyMapping).target = none ∧
      ((mapWeeksByHolidays weeks sy ty anchors wsd).getD i dummyMapping).error
        = some noAnchorError)
    ↔ ∃ k, nearestAnchorKey (allSourceHolidaysOf sy anchors) wsd
          (weeks.getD i dummySourceWeek) = some k
        ∧ lookupAssoc (allTargetHolidaysOf ty anchors) k = none := by
  rw [mapWeeksByHolidays_getD weeks sy ty anchors wsd i h]
  have hs := getWeekHolidayRelationship_isSome (sourceStartOf (weeks.getD i dummySourceWeek))
    (allSourceHolidaysOf sy anchors) wsd (allSourceHolidaysOf_ne_nil sy anchors)
  cases hr : getWeekHolidayRelationship (sourceStartOf (weeks.getD i dummySourceWeek))
      (allSourceHolidaysOf sy anchors) wsd with
  | none => rw [hr] at hs; simp at hs
  | some rel =>
    unfold mapOneWeek nearestAnchorKey
    simp only [hr]
    cases hl : lookupAssoc (allTargetHolidaysOf ty anchors) rel.key with
    | none =>
      constructor
      · intro _
        exact ⟨rel.key, rfl, hl⟩
      · intro _
        exact ⟨rfl, rfl⟩
    | some th =>
      constructor
      · intro hcon
        exact Option.noConfusion hcon.1
      · rintro ⟨k, hk, hlk⟩
        have hk2 : k = rel.key := by simpa using hk.symm
        rw [hk2, hl] at hlk
        exact Option.noConfusion hlk

/-- The error mapping emitted for an unresolvable anchor (lines 93-101 of
`weekMapping.js`). -/
def errMapping (w : SourceWeek) (rel : AnchorRel) : Mapping :=
  { source := some w, sourceStart := some (sourceStartOf w), target := none,
    relationship := some rel.relationship, holidayKey := some rel.key,
    weeksAway := some rel.weeksAway, error := some noAnchorError }

/-- The successful mapping emitted for a resolvable anchor (lines 112-126
of `weekMapping.js`). -/
def okMapping (w : SourceWeek) (rel : AnchorRel) (th : Holiday) (wsd : Int) : Mapping :=
  { source := some w, sourceStart := some (sourceStartOf w),
    sourceRange := some (formatWeekRange (sourceStartOf w) (sourceStartOf w + 7)),
    target := some ⟨getWeekContainingDate th.date wsd + rel.weeksAway * 7,
      getWeekContainingDate th.date wsd + rel.weeksAway * 7 + 7,
      weekKey (getWeekContainingDate th.date wsd + rel.weeksAway * 7)⟩,
    targetRange := some (formatWeekRange (getWeekContainingDate th.date wsd + rel.weeksAway * 7)
      (getWeekContainingDate th.date wsd + rel.weeksAway * 7 + 7)),
    relationship := some rel.relationship, holidayKey := some rel.key,
    weeksAway := some rel.weeksAway, proposedPrice := some w.price }

/-- Case analysis of one mapper iteration: with a nonempty source anchor
set, each source week yields either the error mapping or the successful
mapping. -/
theorem mapOneWeek_shape (allS allT : List (String × Holiday)) (wsd : Int)
    (w : SourceWeek) (h : allS ≠ []) :
    ∃ rel, getWeekHolidayRelationship (sourceStartOf w) allS wsd = some rel ∧
      ((lookupAssoc allT rel.key = none ∧
          (mapOneWeek allS allT wsd w).getD dummyMapping = errMapping w rel) ∨
        (∃ th, lookupAssoc allT rel.key = some th ∧
          (mapOneWeek allS allT wsd w).getD dummyMapping = okMapping w rel th wsd)) := by
  have hs := getWeekHolidayRelationship_isSome (sourceStartOf w) allS wsd h
  cases hr : getWeekHolidayRelationship (sourceStartOf w) allS wsd with
  | none => rw [hr] at hs; simp at hs
  | some rel =>
    refine ⟨rel, rfl, ?_⟩
    unfold mapOneWeek
    simp only [hr]
    cases hl : lookupAssoc allT rel.key with
    | none => exact Or.inl ⟨rfl, rfl⟩
    | some th => exact Or.inr ⟨th, rfl, rfl⟩

/-- Claim C5: `mapWeeksByHolidays` is total and length/order preserving --
one output per input week, in order, the empty list mapping to the empty
list -- and each successful mapping carries the source week's price through
unmodified as `proposedPrice`. -/
theorem claim_C5 (weeks : List SourceWeek) (sy ty : Int) (anchors : List Anchor)
    (wsd : Int) :
    (mapWeeksByHolidays weeks sy ty anchors wsd).length = weeks.length ∧
    mapWeeksByHolidays [] sy ty anchors wsd = [] ∧
    ∀ i, i < weeks.length →
      ((mapWeeksByHolidays weeks sy ty anchors wsd).getD i dummyMapping).source
          = some (weeks.getD i dummySourceWeek) ∧
      (((mapWeeksByHolidays weeks sy ty anchors wsd).getD i dummyMapping).target ≠ none →
        ((mapWeeksByHolidays weeks sy ty anchors wsd).getD i dummyMapping).proposedPrice
          = some (weeks.getD i dummySourceWeek).price) := by
  refine ⟨?_, rfl, ?_⟩
  · rw [mapWeeksByHolidays_eq_map]
    exact List.length_map weeks _
  · intro i h
    rw [mapWeeksByHolidays_getD weeks sy ty anchors wsd i h]
    obtain ⟨rel, _, hcase⟩ := mapOneWeek_shape (allSourceHolidaysOf sy anchors)
      (allTargetHolidaysOf ty anchors) wsd (weeks.getD i dummySourceWeek)
      (allSourceHolidaysOf_ne_nil sy anchors)
    rcases hcase with ⟨_, heq⟩ | ⟨th, _, heq⟩
    · rw [heq]
      exact ⟨rfl, fun hne => absurd rfl hne⟩
    · rw [heq]
      exact ⟨rfl, fun _ => rfl⟩

/-- Witness for C5: one concrete week, mapped 2026 → 2027. -/
theorem claim_C5_witness :
    (0 : Nat) < 1 ∧
    ((mapWeeksByHolidays
        [{ start := .obj (some 2026) (some 9) (some 17), price := .str "$2,400" }]
        2026 2027 [] 6).getD 0 dummyMapping).source
      = some (([{ start := .obj (some 2026) (some 9) (some 17), price := .str "$2,400" }] :
          List SourceWeek).getD 0 dummySourceWeek) :=
  ⟨by decide,
    ((claim_C5 [{ start := .obj (some 2026) (some 9) (some 17), price := .str "$2,400" }]
      2026 2027 [] 6).2.2 0 (by decide)).1⟩

/-- The mapping emitted at position `i` of a mapper run. -/
def mappedAt (weeks : List SourceWeek) (sy ty : Int) (anchors : List Anchor)
    (wsd : Int) (i : Nat) : Mapping :=
  (mapWeeksByHolidays weeks sy ty anchors wsd).getD i dummyMapping

/-- Claim C10: an error mapping (`target = null`) carries only `source`,
`sourceStart`, `target`, `relationship`, `holidayKey`, `weeksAway` and
`error` -- in particular no `sourceRange`, `targetRange` or
`proposedPrice` -- while every successful mapping carries `sourceRange`,
`targetRange` and `proposedPrice` and no `error`. -/
theorem claim_C10 (weeks : List SourceWeek) (sy ty : Int) (anchors : List Anchor)
    (wsd : Int) (i : Nat) (h : i < weeks.length) :
    ((mappedAt weeks sy ty anchors wsd i).target = none →
      (mappedAt weeks sy ty anchors wsd i).sourceRange = none ∧
      (mappedAt weeks sy ty anchors wsd i).targetRange = none ∧
      (mappedAt weeks sy ty anchors wsd i).proposedPrice = none ∧
      (mappedAt weeks sy ty anchors wsd i).source.isSome ∧
      (mappedAt weeks sy ty anchors wsd i).sourceStart.isSome ∧
      (mappedAt weeks sy ty anchors wsd i).relationship.isSome ∧
      (mappedAt weeks sy ty anchors wsd i).holidayKey.isSome ∧
      (mappedAt weeks sy ty anchors wsd i).weeksAway.isSome ∧
      (mappedAt weeks sy ty anchors wsd i).error = some noAnchorError ∧
      (mappedAt weeks sy ty anchors wsd i).isGapFill = false) ∧
    ((mappedAt weeks sy ty anchors wsd i).target ≠ none →
      (mappedAt weeks sy ty anchors wsd i).sourceRange.isSome ∧
      (mappedAt weeks sy ty anchors wsd i).targetRange.isSome ∧
      (mappedAt weeks sy ty anchors wsd i).proposedPrice.isSome ∧
      (mappedAt weeks sy ty anchors wsd i).error = none) := by
  unfold mappedAt
  rw [mapWeeksByHolidays_getD weeks sy ty anchors wsd i h]
  obtain ⟨rel, _, hcase⟩ := mapOneWeek_shape (allSourceHolidaysOf sy anchors)
    (allTargetHolidaysOf ty anchors) wsd (weeks.getD i dummySourceWeek)
    (allSourceHolidaysOf_ne_nil sy anchors)
  rcases hcase with ⟨_, heq⟩ | ⟨th, _, heq⟩
  · rw [heq]
    exact ⟨fun _ => ⟨rfl, rfl, rfl, rfl, rfl, rfl, rfl, rfl, rfl, rfl⟩,
      fun hne => absurd rfl hne⟩
  · rw [heq]
    exact ⟨fun hcon => Option.noConfusion hcon, fun _ => ⟨rfl, rfl, rfl, rfl⟩⟩

/-- Concrete source week used by the mapper witnesses: the rental week of
2026-10-17. -/
def exWeek : SourceWeek :=
  { start := .obj (some 2026) (some 9) (some 17), price := .str "$2,400" }

/-- Concrete enabled custom anchor with a source date (2026-10-17) and no
target date. -/
def exAnchor : Anchor :=
  { id := "derby", name := "Fishing Derby", type := "custom", enabled := true,
    sourceDate := some (jsDate 2026 9 17) }

/-- Witness for C10: the custom anchor without a target date produces the
error-shaped mapping for index 0. -/
theorem claim_C10_witness :
    (0 : Nat) < 1 ∧
    ((mappedAt [exWeek] 2026 2027 [exAnchor] 6 0).target = none →
      (mappedAt [exWeek] 2026 2027 [exAnchor] 6 0).sourceRange = none ∧
      (mappedAt [exWeek] 2026 2027 [exAnchor] 6 0).targetRange = none ∧
      (mappedAt [exWeek] 2026 2027 [exAnchor] 6 0).proposedPrice = none ∧
      (mappedAt [exWeek] 2026 2027 [exAnchor] 6 0).source.isSome ∧
      (mappedAt [exWeek] 2026 2027 [exAnchor] 6 0).sourceStart.isSome ∧
      (mappedAt [exWeek] 2026 2027 [exAnchor] 6 0).relationship.isSome ∧
      (mappedAt [exWeek] 2026 2027 [exAnchor] 6 0).holidayKey.isSome ∧
      (mappedAt [exWeek] 2026 2027 [exAnchor] 6 0).weeksAway.isSome ∧
      (mappedAt [exWeek] 2026 2027 [exAnchor] 6 0).error = some noAnchorError ∧
      (mappedAt [exWeek] 2026 2027 [exAnchor] 6 0).isGapFill = false) :=
  ⟨by decide, (claim_C10 [exWeek] 2026 2027 [exAnchor] 6 0 (by decide)).1⟩

/-- Witness for C4: the same custom-anchor configuration at index 0. -/
theorem claim_C4_witness :
    (0 : Nat) < 1 ∧
    ((((mapWeeksByHolidays [exWeek] 2026 2027 [exAnchor] 6).getD 0 dummyMapping).target = none ∧
      ((mapWeeksByHolidays [exWeek] 2026 2027 [exAnchor] 6).getD 0 dummyMapping).error
        = some noAnchorError)
    ↔ ∃ k, nearestAnchorKey (allSourceHolidaysOf 2026 [exAnchor]) 6
          (([exWeek] : List SourceWeek).getD 0 dummySourceWeek) = some k
        ∧ lookupAssoc (allTargetHolidaysOf 2027 [exAnchor]) k = none) :=
  ⟨by decide, claim_C4 [exWeek] 2026 2027 [exAnchor] 6 0 (by decide)⟩

/-! ## Claim C8: price parsing and NaN handling -/

/-- Counterexample for C8 as stated.  The claim describes one parsing
routine returning 0 for empty/null input and NaN for non-numeric content;
neither source function does both: `calculations.js`'s `parsePrice` maps
the non-numeric `"abc"` to 0 (not NaN), and `weekMapping.js`'s internal
`parsePrice` maps the empty string (and `null`) to NaN (not 0). -/
theorem claim_C8_counterexample :
    calcParsePrice (some (.str "abc")) = some 0 ∧
    wmParsePrice (some (.str "")) = none ∧
    wmParsePrice none = none := by
  refine ⟨?_, rfl, rfl⟩
  decide

/-- Claim C8 (amended): `calculations.js`'s `parsePrice` returns 0 for
empty/null input and also 0 for genuinely non-numeric content, while the
internal `parsePrice` of `weekMapping.js` returns NaN both for empty/null
input and for non-numeric content; the strategy-reversal arithmetic of
`detectConflicts` skips (emits no conflict for) any mapping whose parsed
price is NaN rather than crashing. -/
theorem claim_C8_amended :
    calcParsePrice none = some 0 ∧
    calcParsePrice (some (.str "")) = some 0 ∧
    calcParsePrice (some (.str "abc")) = some 0 ∧
    calcParsePrice (some (.str "$3,000")) = some 3000 ∧
    wmParsePrice none = none ∧
    wmParsePrice (some (.str "")) = none ∧
    wmParsePrice (some (.str "abc")) = none ∧
    wmParsePrice (some (.str "$3,500")) = some 3500 ∧
    ∀ (ms sorted : List Mapping) (i : Nat) (m : Mapping),
      wmParsePrice m.proposedPrice = none → reversalStep ms sorted i m = none := by
  refine ⟨rfl, rfl, by decide, by decide, rfl, rfl, by decide, by decide, ?_⟩
  intro ms sorted i m hnan
  unfold reversalStep reversalCore
  split
  · rfl
  · rw [hnan]
    rfl

/-- Witness for the amended C8: the NaN-skip hypothesis discharged at a
concrete mapping with a non-numeric price. -/
theorem claim_C8_amended_witness :
    wmParsePrice (Mapping.proposedPrice
      { target := some ⟨0, 7, "1970-01-01"⟩, proposedPrice := some (.str "abc") }) = none ∧
    reversalStep [] [] 0
      { target := some ⟨0, 7, "1970-01-01"⟩, proposedPrice := some (.str "abc") } = none :=
  ⟨by decide,
    claim_C8_amended.2.2.2.2.2.2.2.2 [] [] 0
      { target := some ⟨0, 7, "1970-01-01"⟩, proposedPrice := some (.str "abc") } (by decide)⟩

/-! ## Helper lemmas: conflict classification -/

/-- Whether a mapping targets the week with key `k`. -/
def contributesTo (m : Mapping) (k : String) : Bool :=
  match m.target with
  | some t => t.key == k
  | none => false

/-- All mappings contributing to target key `k`, in list order. -/
def contributorsOf (ms : List Mapping) (k : String) : List Mapping :=
  ms.filter (fun m => contributesTo m k)

/-- Lookup in the target-key grouping. -/
def lookupGroups (l : List (String × List Mapping)) (k : String) : Option (List Mapping) :=
  match l with
  | [] => none
  | (k0, g) :: rest => if k0 = k then some g else lookupGroups rest k

/-- Merge of a pre-existing group with later contributors. -/
def mergeG (o : Option (List Mapping)) (l : List Mapping) : Option (List Mapping) :=
  match o, l with
  | none, [] => none
  | none, l => some l
  | some g, l => some (g ++ l)

theorem mergeG_nil (o : Option (List Mapping)) : mergeG o [] = o := by
  cases o <;> simp [mergeG]

theorem lookupGroups_addToGroup_self (acc : List (String × List Mapping)) (k : String)
    (m : Mapping) :
    lookupGroups (addToGroup acc k m) k = some (((lookupGroups acc k).getD []) ++ [m]) := by
  induction acc with
  | nil => simp [addToGroup, lookupGroups]
  | cons hd rest ih =>
    obtain ⟨k0, g⟩ := hd
    by_cases hk : k0 = k
    · subst hk
      simp [addToGroup, lookupGroups]
    · simp [addToGroup, lookupGroups, hk, ih]

theorem lookupGroups_addToGroup_ne (acc : List (String × List Mapping)) (k k' : String)
    (m : Mapping) (h : k' ≠ k) :
    lookupGroups (addToGroup acc k m) k' = lookupGroups acc k' := by
  induction acc with
  | nil =>
    unfold addToGroup lookupGroups
    rw [if_neg (fun he : k = k' => h (Eq.symm he))]
    rfl
  | cons hd rest ih =>
    obtain ⟨k0, g⟩ := hd
    by_cases hk : k0 = k
    · subst hk
      unfold addToGroup
      rw [if_pos rfl]
      unfold lookupGroups
      by_cases hk' : k0 = k'
      · exact absurd (Eq.symm hk') h
      · rw [if_neg hk', if_neg hk']
    · unfold addToGroup
      rw [if_neg hk]
      unfold lookupGroups
      by_cases hk' : k0 = k'
      · rw [if_pos hk', if_pos hk']
      · rw [if_neg hk', if_neg hk', ih]

theorem lookupGroups_foldl (ms : List Mapping) (acc : List (String × List Mapping))
    (k : String) :
    lookupGroups
        (ms.foldl
          (fun acc m =>
            match m.target with
            | none => acc
            | some t => addToGroup acc t.key m)
          acc) k
      = mergeG (lookupGroups acc k) (contributorsOf ms k) := by
  induction ms generalizing acc with
  | nil => simp [contributorsOf, mergeG_nil]
  | cons m rest ih =>
    simp only [List.foldl_cons]
    cases hmt : m.target with
    | none =>
      rw [ih]
      have : contributorsOf (m :: rest) k = contributorsOf rest k := by
        simp [contributorsOf, List.filter_cons, contributesTo, hmt]
      rw [this]
    | some t =>
      by_cases hk : t.key = k
      · subst hk
        rw [ih, lookupGroups_addToGroup_self]
        have : contributorsOf (m :: rest) t.key = m :: contributorsOf rest t.key := by
          simp [contributorsOf, List.filter_cons, contributesTo, hmt]
        rw [this]
        cases hacc : lookupGroups acc t.key <;>
          cases hrest : contributorsOf rest t.key <;> simp [mergeG]
      · rw [ih, lookupGroups_addToGroup_ne acc t.key k m (fun he => hk he.symm)]
        have : contributorsOf (m :: rest) k = contributorsOf rest k := by
          simp [contributorsOf, List.filter_cons, contributesTo, hmt, hk]
        rw [this]

theorem lookupGroups_groupByTarget (ms : List Mapping) (k : String) :
    lookupGroups (groupByTarget ms) k = mergeG none (contributorsOf ms k) := by
  unfold groupByTarget
  have := lookupGroups_foldl ms [] k
  rw [this]
  rfl

theorem mem_keys_addToGroup (acc : List (String × List Mapping)) (k a : String)
    (m : Mapping) :
    a ∈ (addToGroup acc k m).map Prod.fst ↔ a ∈ acc.map Prod.fst ∨ a = k := by
  induction acc with
  | nil => simp [addToGroup]
  | cons hd rest ih =>
    obtain ⟨k0, g⟩ := hd
    by_cases hk : k0 = k
    · subst hk
      unfold addToGroup
      rw [if_pos rfl]
      simp only [List.map_cons, List.mem_cons]
      constructor
      · rintro (rfl | hmem)
        · exact Or.inr rfl
        · exact Or.inl (Or.inr hmem)
      · rintro ((rfl | hmem) | rfl)
        · exact Or.inl rfl
        · exact Or.inr hmem
        · exact Or.inl rfl
    · unfold addToGroup
      rw [if_neg hk]
      simp only [List.map_cons, List.mem_cons, ih]
      tauto

theorem nodup_keys_addToGroup (acc : List (String × List Mapping)) (k : String)
    (m : Mapping) (h : (acc.map Prod.fst).Nodup) :
    ((addToGroup acc k m).map Prod.fst).Nodup := by
  induction acc with
  | nil => simp [addToGroup]
  | cons hd rest ih =>
    obtain ⟨k0, g⟩ := hd
    simp only [List.map_cons, List.nodup_cons] at h
    by_cases hk : k0 = k
    · subst hk
      simpa [addToGroup, List.nodup_cons] using h
    · simp only [addToGroup, if_neg hk, List.map_cons, List.nodup_cons]
      refine ⟨?_, ih h.2⟩
      rw [mem_keys_addToGroup]
      rintro (hm | rfl)
      · exact h.1 hm
      · exact hk rfl

theorem nodup_keys_foldl (ms : List Mapping) (acc : List (String × List Mapping))
    (h : (acc.map Prod.fst).Nodup) :
    ((ms.foldl
        (fun acc m =>
          match m.target with
          | none => acc
          | some t => addToGroup acc t.key m)
        acc).map Prod.fst).Nodup := by
  induction ms generalizing acc with
  | nil => exact h
  | cons m rest ih =>
    simp only [List.foldl_cons]
    cases hmt : m.target with
    | none => exact ih acc h
    | some t => exact ih _ (nodup_keys_addToGroup acc t.key m h)

theorem nodup_keys_groupByTarget (ms : List Mapping) :
    ((groupByTarget ms).map Prod.fst).Nodup :=
  nodup_keys_foldl ms [] (by simp)

theorem lookupGroups_eq_none_of_not_mem (groups : List (String × List Mapping))
    (k : String) (h : k ∉ groups.map Prod.fst) : lookupGroups groups k = none := by
  induction groups with
  | nil => rfl
  | cons hd rest ih =>
    obtain ⟨k0, g⟩ := hd
    simp only [List.map_cons, List.mem_cons] at h
    push_neg at h
    unfold lookupGroups
    rw [if_neg (fun he : k0 = k => h.1 (Eq.symm he))]
    exact ih h.2

theorem collision_filter_of_groups (groups : List (String × List Mapping)) (k : String)
    (hnd : (groups.map Prod.fst).Nodup) :
    (groups.filterMap
        (fun kg => if kg.2.length > 1 then some (mkCollision kg.1 kg.2) else none)).filter
        (fun c => decide (c.type = "collision" ∧ c.targetWeek = some k))
      = (match lookupGroups groups k with
         | some g => if g.length > 1 then [mkCollision k g] else []
         | none => []) := by
  induction groups with
  | nil => rfl
  | cons hd rest ih =>
    obtain ⟨k0, g0⟩ := hd
    simp only [List.map_cons, List.nodup_cons] at hnd
    have ihr := ih hnd.2
    by_cases hk : k0 = k
    · subst hk
      have hrest : lookupGroups rest k0 = none :=
        lookupGroups_eq_none_of_not_mem rest k0 hnd.1
      rw [hrest] at ihr
      unfold lookupGroups
      rw [if_pos rfl]
      simp only [List.filterMap_cons]
      by_cases hlen : g0.length > 1
      · rw [if_pos hlen, if_pos hlen, List.filter_cons]
        have hpred : (decide ((mkCollision k0 g0).type = "collision" ∧
            (mkCollision k0 g0).targetWeek = some k0)) = true := by
          simp [mkCollision]
        rw [hpred, if_pos rfl, ihr]
      · rw [if_neg hlen, if_neg hlen]
        exact ihr
    · unfold lookupGroups
      rw [if_neg hk]
      simp only [List.filterMap_cons]
      by_cases hlen : g0.length > 1
      · rw [if_pos hlen, List.filter_cons]
        have hpred : (decide ((mkCollision k0 g0).type = "collision" ∧
            (mkCollision k0 g0).targetWeek = some k)) = false := by
          simp [mkCollision, hk]
        rw [hpred, if_neg (by simp)]
        exact ihr
      · rw [if_neg hlen]
        exact ihr

theorem mem_collisionConflicts_type (ms : List Mapping) (c : Conflict)
    (h : c ∈ collisionConflicts ms) : c.type = "collision" := by
  unfold collisionConflicts at h
  rw [List.mem_filterMap] at h
  obtain ⟨kg, _, hkg⟩ := h
  by_cases hlen : kg.2.length > 1
  · rw [if_pos hlen] at hkg
    cases hkg
    rfl
  · rw [if_neg hlen] at hkg
    exact Option.noConfusion hkg

theorem mem_gapConflicts_type (ms : List Mapping) (tws : List YearWeek)
    (ths : List (String × Holiday)) (wsd : Int) (c : Conflict)
    (h : c ∈ gapConflicts ms tws ths wsd) : c.type = "gap" := by
  unfold gapConflicts at h
  rw [List.mem_filterMap] at h
  obtain ⟨tw, _, htw⟩ := h
  by_cases h1 : getMonth tw.start < 3 ∨ getMonth tw.start > 10
  · rw [if_pos h1] at htw
    exact Option.noConfusion htw
  · rw [if_neg h1] at htw
    by_cases h2 : ((mappedTargetKeys ms).contains tw.key : Bool)
    · rw [if_pos h2] at htw
      exact Option.noConfusion htw
    · rw [if_neg h2] at htw
      cases htw
      rfl

theorem forall_mem_mapIdx {α β : Type} (f : Nat → α → β) (p : β → Prop)
    (l : List α) (hf : ∀ i a, p (f i a)) : ∀ b ∈ l.mapIdx f, p b := by
  induction l generalizing f with
  | nil => intro b hb; simp at hb
  | cons a rest ih =>
    intro b hb
    rw [List.mapIdx_cons] at hb
    rcases List.mem_cons.mp hb with rfl | hb2
    · exact hf 0 a
    · exact ih _ (fun i x => hf (i + 1) x) b hb2

theorem mem_reversalConflicts_type (ms : List Mapping) (c : Conflict)
    (h : c ∈ reversalConflicts ms) : c.type = "strategy_reversal" := by
  unfold reversalConflicts at h
  rw [List.mem_filterMap] at h
  obtain ⟨o, ho, hoc⟩ := h
  have hall := forall_mem_mapIdx (fun i m => reversalStep ms (sortedSuccessful ms) i m)
    (fun o => ∀ c0, o = some c0 → c0.type = "strategy_reversal") ms ?_ o ho
  · exact hall c hoc
  · intro i a c0 hc0
    unfold reversalStep at hc0
    rw [Option.map_eq_some'] at hc0
    obtain ⟨pq, _, hpq⟩ := hc0
    rw [← hpq]
    rfl

/-! ## Claim C7: collision conflicts -/

/-- Claim C7: `detectConflicts` emits exactly one collision conflict per
target key with ≥ 2 successful contributing mappings (none otherwise), and
that conflict's `mappings` array has one entry per contributing mapping. -/
theorem claim_C7 (ms : List Mapping) (ty wsd : Int) (k : String) :
    ((detectConflicts ms ty wsd).filter
        (fun c => decide (c.type = "collision" ∧ c.targetWeek = some k))
      = if 2 ≤ (contributorsOf ms k).length
        then [mkCollision k (contributorsOf ms k)] else []) ∧
    (mkCollision k (contributorsOf ms k)).mappings
      = (contributorsOf ms k).map collisionEntryOf := by
  constructor
  · unfold detectConflicts
    rw [List.filter_append, List.filter_append]
    have hgap : (gapConflicts ms (generateWeeksForYear ty wsd)
        (getHolidaysForYear ty) wsd).filter
        (fun c => decide (c.type = "collision" ∧ c.targetWeek = some k)) = [] := by
      rw [List.filter_eq_nil_iff]
      intro c hc
      have := mem_gapConflicts_type ms _ _ wsd c hc
      simp [this]
    have hrev : (reversalConflicts ms).filter
        (fun c => decide (c.type = "collision" ∧ c.targetWeek = some k)) = [] := by
      rw [List.filter_eq_nil_iff]
      intro c hc
      have := mem_reversalConflicts_type ms c hc
      simp [this]
    rw [hgap, hrev, List.append_nil, List.append_nil]
    unfold collisionConflicts
    rw [collision_filter_of_groups (groupByTarget ms) k (nodup_keys_groupByTarget ms)]
    rw [lookupGroups_groupByTarget]
    cases hc : contributorsOf ms k with
    | nil => rfl
    | cons a l => rfl
  · rfl

/-! ## Claim C6: gap conflicts -/

theorem gapConflicts_map_targetWeek (ms : List Mapping) (tws : List YearWeek)
    (ths : List (String × Holiday)) (wsd : Int) :
    (gapConflicts ms tws ths wsd).map (·.targetWeek)
      = (tws.filter
          (fun tw => decide (3 ≤ getMonth tw.start ∧ getMonth tw.start ≤ 10 ∧
            tw.key ∉ mappedTargetKeys ms))).map (fun tw => some tw.key) := by
  induction tws with
  | nil => rfl
  | cons tw rest ih =>
    unfold gapConflicts at ih ⊢
    rw [List.filterMap_cons, List.filter_cons]
    by_cases h1 : getMonth tw.start < 3 ∨ getMonth tw.start > 10
    · rw [if_pos h1]
      have hp : (decide (3 ≤ getMonth tw.start ∧ getMonth tw.start ≤ 10 ∧
          tw.key ∉ mappedTargetKeys ms)) = false := by
        rcases h1 with h1 | h1 <;> simp [not_le.mpr h1]
      rw [hp, if_neg (by simp)]
      exact ih
    · rw [if_neg h1]
      push_neg at h1
      by_cases h2 : ((mappedTargetKeys ms).contains tw.key : Bool)
      · rw [if_pos h2]
        have hmem : tw.key ∈ mappedTargetKeys ms := by simpa using h2
        have hp : (decide (3 ≤ getMonth tw.start ∧ getMonth tw.start ≤ 10 ∧
            tw.key ∉ mappedTargetKeys ms)) = false := by
          simp [hmem]
        rw [hp, if_neg (by simp)]
        exact ih
      · rw [if_neg h2]
        have hnmem : tw.key ∉ mappedTargetKeys ms := by
          simpa using h2
        have hp : (decide (3 ≤ getMonth tw.start ∧ getMonth tw.start ≤ 10 ∧
            tw.key ∉ mappedTargetKeys ms)) = true := by
          simp [h1.1, h1.2, hnmem]
        rw [hp, if_pos rfl]
        simp only [List.map_cons]
        rw [ih]
        rfl

/-- Claim C6: `detectConflicts` emits one gap conflict for exactly those
target-year weeks whose start month (0-indexed) lies in 3..10 and whose
key is not the target key of any successful mapping, in week order.  (A
July week has month 6 and so qualifies when unmapped; a January week has
month 0 and never does.) -/
theorem claim_C6 (ms : List Mapping) (ty wsd : Int) :
    ((detectConflicts ms ty wsd).filter (fun c => decide (c.type = "gap"))).map
        (fun c => c.targetWeek)
      = ((generateWeeksForYear ty wsd).filter
          (fun tw => decide (3 ≤ getMonth tw.start ∧ getMonth tw.start ≤ 10 ∧
            tw.key ∉ mappedTargetKeys ms))).map (fun tw => some tw.key) := by
  unfold detectConflicts
  rw [List.filter_append, List.filter_append]
  have hcoll : (collisionConflicts ms).filter (fun c => decide (c.type = "gap")) = [] := by
    rw [List.filter_eq_nil_iff]
    intro c hc
    have := mem_collisionConflicts_type ms c hc
    simp [this]
  have hrev : (reversalConflicts ms).filter (fun c => decide (c.type = "gap")) = [] := by
    rw [List.filter_eq_nil_iff]
    intro c hc
    have := mem_reversalConflicts_type ms c hc
    simp [this]
  have hgap : (gapConflicts ms (generateWeeksForYear ty wsd)
      (getHolidaysForYear ty) wsd).filter (fun c => decide (c.type = "gap"))
      = gapConflicts ms (generateWeeksForYear ty wsd) (getHolidaysForYear ty) wsd := by
    rw [List.filter_eq_self]
    intro c hc
    have := mem_gapConflicts_type ms _ _ wsd c hc
    simp [this]
  rw [hcoll, hrev, hgap, List.nil_append, List.append_nil]
  exact gapConflicts_map_targetWeek ms _ _ wsd

/-! ## Helper lemmas: the output sort of `applyResolutions` -/

theorem mem_insertByStart (m y : Mapping) (l : List Mapping) :
    y ∈ insertByStart m l ↔ y = m ∨ y ∈ l := by
  induction l with
  | nil => simp [insertByStart]
  | cons x xs ih =>
    unfold insertByStart
    by_cases hx : mStart x < mStart m
    · rw [if_pos hx]
      simp only [List.mem_cons, ih]
      tauto
    · rw [if_neg hx]
      simp only [List.mem_cons]

theorem pairwise_insertByStart (m : Mapping) (l : List Mapping)
    (h : l.Pairwise (fun a b => mStart a ≤ mStart b)) :
    (insertByStart m l).Pairwise (fun a b => mStart a ≤ mStart b) := by
  induction l with
  | nil => simp [insertByStart]
  | cons x xs ih =>
    rw [List.pairwise_cons] at h
    unfold insertByStart
    by_cases hx : mStart x < mStart m
    · rw [if_pos hx]
      rw [List.pairwise_cons]
      constructor
      · intro y hy
        rcases (mem_insertByStart m y xs).mp hy with rfl | hyx
        · exact le_of_lt hx
        · exact h.1 y hyx
      · exact ih h.2
    · rw [if_neg hx]
      rw [List.pairwise_cons]
      constructor
      · intro y hy
        rcases List.mem_cons.mp hy with rfl | hyx
        · exact not_lt.mp hx
        · exact le_trans (not_lt.mp hx) (h.1 y hyx)
      · exact List.pairwise_cons.mpr h

theorem pairwise_sortByTargetStart (l : List Mapping) :
    (sortByTargetStart l).Pairwise (fun a b => mStart a ≤ mStart b) := by
  induction l with
  | nil => simp [sortByTargetStart]
  | cons a t ih => exact pairwise_insertByStart a (sortByTargetStart t) ih

theorem range_map_getD (l : List Mapping) :
    (List.range l.length).map (fun i => l.getD i dummyMapping) = l := by
  induction l with
  | nil => rfl
  | cons a t ih =>
    rw [List.length_cons, List.range_succ_eq_map, List.map_cons, List.map_map]
    have : ((fun i => (a :: t).getD i dummyMapping) ∘ Nat.succ)
        = (fun i => t.getD i dummyMapping) := by
      funext j
      rfl
    rw [this, ih]
    rfl

/-! ## Claim C9: unresolved conflicts are inert -/

theorem applyStep_inert (st : List Mapping × List Nat × List Mapping) (c : Conflict)
    (h : c.resolved = false) : applyStep st c = st := by
  unfold applyStep
  rw [if_pos]
  simp [h]

theorem foldl_applyStep_inert (cs : List Conflict)
    (st : List Mapping × List Nat × List Mapping)
    (h : ∀ c ∈ cs, c.resolved = false) : cs.foldl applyStep st = st := by
  induction cs generalizing st with
  | nil => rfl
  | cons c rest ih =>
    rw [List.foldl_cons, applyStep_inert st c (h c (List.mem_cons_self c rest))]
    exact ih st (fun x hx => h x (List.mem_cons_of_mem c hx))

/-- Claim C9: with no resolved conflicts, `applyResolutions` returns
exactly the input mappings with null-target entries filtered out and the
remainder stably sorted by `target.start` ascending, and mutates nothing:
the input objects are unchanged afterwards. -/
theorem claim_C9 (ms : List Mapping) (cs : List Conflict)
    (h : ∀ c ∈ cs, c.resolved = false) :
    applyResolutions ms cs
        = sortByTargetStart (ms.filter (fun m => m.target.isSome)) ∧
    inputsAfterApply ms cs = ms ∧
    (applyResolutions ms cs).Pairwise (fun a b => mStart a ≤ mStart b) := by
  have hfold := foldl_applyStep_inert cs (ms, List.range ms.length, []) h
  have h1 : applyResolutions ms cs
      = sortByTargetStart (ms.filter (fun m => m.target.isSome)) := by
    unfold applyResolutions applyResolutionsFull
    rw [hfold]
    show sortByTargetStart
        (((List.range ms.length).map (fun i => ms.getD i dummyMapping) ++ []).filter
          (fun m => m.target.isSome))
      = sortByTargetStart (ms.filter (fun m => m.target.isSome))
    rw [List.append_nil, range_map_getD]
  refine ⟨h1, ?_, ?_⟩
  · unfold inputsAfterApply applyResolutionsFull
    rw [hfold]
  · rw [h1]
    exact pairwise_sortByTargetStart _

/-! ## Claim C2: what `applyResolutions` mutates -/

/-- A mapping with its `proposedPrice` forgotten: equality under
`eraseProposed` says every other field is untouched. -/
def eraseProposed (m : Mapping) : Mapping := { m with proposedPrice := none }

theorem eraseProposed_setProposedPrice (m : Mapping) (p : Option JSVal) :
    eraseProposed (setProposedPrice m p) = eraseProposed m := rfl

theorem map_eraseP_set (l : List Mapping) (i : Nat) (v : Mapping)
    (hv : eraseProposed v = eraseProposed (l.getD i dummyMapping)) :
    (l.set i v).map eraseProposed = l.map eraseProposed := by
  induction l generalizing i with
  | nil => simp
  | cons a t ih =>
    cases i with
    | zero =>
      simp only [List.getD_cons_zero] at hv
      simp only [List.set_cons_zero, List.map_cons, hv]
    | succ j =>
      simp only [List.getD_cons_succ] at hv
      simp only [List.set_cons_succ, List.map_cons]
      rw [ih j hv]

theorem collisionLoop_map_eraseP (r : Resolution) (c : Conflict) (heap : List Mapping)
    (idxs : List Nat) (kept : Bool) :
    ((collisionLoop r c heap idxs kept).1).map eraseProposed = heap.map eraseProposed := by
  induction idxs generalizing kept with
  | nil => rfl
  | cons i rest ih =>
    unfold collisionLoop
    rcases hres : collisionLoop r c heap rest kept with ⟨heap1, rest1, kept1⟩
    have hh1 : heap1.map eraseProposed = heap.map eraseProposed := by
      have := ih kept
      rw [hres] at this
      exact this
    simp only []
    split
    · split
      · split
        · simp only []
          rw [map_eraseP_set heap1 i _ (eraseProposed_setProposedPrice _ _), hh1]
        · exact hh1
      · split
        · simp only []
          rw [map_eraseP_set heap1 i _ (eraseProposed_setProposedPrice _ _), hh1]
        · exact hh1
    · exact hh1

theorem applyStep_map_eraseP (st : List Mapping × List Nat × List Mapping) (c : Conflict) :
    ((applyStep st c).1).map eraseProposed = (st.1).map eraseProposed := by
  unfold applyStep
  by_cases hres : c.resolved
  · rw [if_neg (by simpa using hres)]
    cases hr : c.resolution with
    | none => rfl
    | some r =>
      simp only []
      by_cases hty : c.type = "collision"
      · rw [if_pos hty]
        rcases hcl : collisionLoop r c st.1 st.2.1 false with ⟨heap1, rest1, kept1⟩
        have hmap := collisionLoop_map_eraseP r c st.1 st.2.1 false
        rw [hcl] at hmap
        simpa using hmap
      · rw [if_neg hty]
        split
        · rfl
        · rfl
  · rw [if_pos (by simpa using hres)]

theorem foldl_applyStep_map_eraseP (cs : List Conflict)
    (st : List Mapping × List Nat × List Mapping) :
    ((cs.foldl applyStep st).1).map eraseProposed = (st.1).map eraseProposed := by
  induction cs generalizing st with
  | nil => rfl
  | cons c rest ih =>
    rw [List.foldl_cons]
    rw [ih (applyStep st c), applyStep_map_eraseP st c]

theorem applyStep_fst_of_no_resolved_collision
    (st : List Mapping × List Nat × List Mapping) (c : Conflict)
    (h : c.type = "collision" → c.resolved = false) : (applyStep st c).1 = st.1 := by
  unfold applyStep
  by_cases hres : c.resolved
  · rw [if_neg (by simpa using hres)]
    cases c.resolution with
    | none => rfl
    | some r =>
      simp only []
      have hty : ¬c.type = "collision" := by
        intro hty
        rw [h hty] at hres
        exact Bool.noConfusion hres
      rw [if_neg hty]
      split
      · rfl
      · rfl
  · rw [if_pos (by simpa using hres)]

theorem foldl_applyStep_fst_of_no_resolved_collision (cs : List Conflict)
    (st : List Mapping × List Nat × List Mapping)
    (h : ∀ c ∈ cs, c.type = "collision" → c.resolved = false) :
    ((cs.foldl applyStep st).1) = st.1 := by
  induction cs generalizing st with
  | nil => rfl
  | cons c rest ih =>
    rw [List.foldl_cons]
    rw [ih (applyStep st c) (fun x hx => h x (List.mem_cons_of_mem c hx))]
    exact applyStep_fst_of_no_resolved_collision st c (h c (List.mem_cons_self c rest))

/-- Claim C2 (amended): `applyResolutions` returns a new list and touches
no field of any input mapping other than `proposedPrice`; when no collision
conflict is resolved the input objects are entirely unchanged.  (A resolved
collision, however, overwrites the kept mapping's `proposedPrice` in place
-- see the counterexample.) -/
theorem claim_C2_amended (ms : List Mapping) (cs : List Conflict) :
    (inputsAfterApply ms cs).map eraseProposed = ms.map eraseProposed ∧
    ((∀ c ∈ cs, c.type = "collision" → c.resolved = false) →
      inputsAfterApply ms cs = ms) := by
  constructor
  · unfold inputsAfterApply applyResolutionsFull
    rcases hres : cs.foldl applyStep (ms, List.range ms.length, []) with ⟨heap, idxs, add⟩
    have := foldl_applyStep_map_eraseP cs (ms, List.range ms.length, [])
    rw [hres] at this
    simpa using this
  · intro h
    unfold inputsAfterApply applyResolutionsFull
    rcases hres : cs.foldl applyStep (ms, List.range ms.length, []) with ⟨heap, idxs, add⟩
    have h2 := foldl_applyStep_fst_of_no_resolved_collision cs
      (ms, List.range ms.length, []) h
    rw [hres] at h2
    simpa using h2

/-! ## Concrete collision scenario for claims C1 and C2 -/

/-- First contributing mapping: source week 2026-06-27 at $3000, mapped to
the 2027-07-03 target week. -/
def exM1 : Mapping :=
  { source := some { start := .obj (some 2026) (some 5) (some 27), price := .num 3000 },
    sourceStart := some (jsDate 2026 5 27),
    sourceRange := some "Jun 27 - Jul 4",
    target := some ⟨jsDate 2027 6 3, jsDate 2027 6 10, "2027-07-03"⟩,
    targetRange := some "Jul 3 - Jul 10",
    relationship := some "1 week before July 4th",
    holidayKey := some "july4th", weeksAway := some (-1),
    proposedPrice := some (.num 3000) }

/-- Second contributing mapping: source week 2026-07-04 at $4000, mapped to
the same 2027-07-03 target week. -/
def exM2 : Mapping :=
  { source := some { start := .obj (some 2026) (some 6) (some 4), price := .num 4000 },
    sourceStart := some (jsDate 2026 6 4),
    sourceRange := some "Jul 4 - Jul 11",
    target := some ⟨jsDate 2027 6 3, jsDate 2027 6 10, "2027-07-03"⟩,
    targetRange := some "Jul 3 - Jul 10",
    relationship := some "July 4th week",
    holidayKey := some "july4th", weeksAway := some 0,
    proposedPrice := some (.num 4000) }

/-- The collision conflict `detectConflicts` builds for the two mappings. -/
def exCollision : Conflict := mkCollision "2027-07-03" [exM1, exM2]

/-- Resolution choosing the second contributor's price (the conflict's own
`sourceIndex = 1` option). -/
def exResSecond : Resolution := { value := .num 4000, sourceIndex := some 1 }

/-- Resolution choosing the first contributor with a new price 9999. -/
def exResFirst : Resolution := { value := .num 9999, sourceIndex := some 0 }

/-- The collision conflict resolved in favour of the second contributor. -/
def exResolvedPickSecond : Conflict :=
  { exCollision with resolved := true, resolution := some exResSecond }

/-- The collision conflict resolved in favour of the first contributor. -/
def exResolvedPickFirst : Conflict :=
  { exCollision with resolved := true, resolution := some exResFirst }

/-- Claim C1 (code bug): resolving a collision in favour of any contributor
other than the first leaves the earlier contributors in place -- the
backwards splice loop stops removing once `kept` is set, so contributors
that precede the chosen mapping survive.  Here a resolved collision
(`sourceIndex = 1`) leaves two mappings for target key 2027-07-03 in the
returned list, contradicting both the claim and the source's own comment
("Remove all but the chosen mapping"). -/
theorem claim_C1_bug :
    exResolvedPickSecond.resolved = true ∧
    exResolvedPickSecond.resolution = some exResSecond ∧
    ((applyResolutions [exM1, exM2] [exResolvedPickSecond]).filter
        (fun m => contributesTo m "2027-07-03")).length = 2 := by
  refine ⟨rfl, rfl, ?_⟩
  decide

/-- Counterexample for C2 as stated: resolving a collision overwrites the
kept input mapping object's `proposedPrice` in place -- after the call the
first input mapping carries 9999 instead of its original 3000. -/
theorem claim_C2_counterexample :
    inputsAfterApply [exM1, exM2] [exResolvedPickFirst] ≠ [exM1, exM2] ∧
    (inputsAfterApply [exM1, exM2] [exResolvedPickFirst]).map
        (fun m => m.proposedPrice)
      = [some (.num 9999), some (.num 4000)] ∧
    exM1.proposedPrice = some (.num 3000) := by
  refine ⟨by decide, by decide, rfl⟩

/-- Witness for the amended C2: with no resolved collision conflict the
input objects are entirely unchanged. -/
theorem claim_C2_amended_witness :
    (∀ c ∈ [exCollision], c.type = "collision" → c.resolved = false) ∧
    inputsAfterApply [exM1, exM2] [exCollision] = [exM1, exM2] :=
  ⟨by decide, (claim_C2_amended [exM1, exM2] [exCollision]).2 (by decide)⟩

/-- Witness for C9: an unresolved conflict list is inert and the output is
the filtered, sorted input. -/
theorem claim_C9_witness :
    (∀ c ∈ [exCollision], c.resolved = false) ∧
    applyResolutions [exM2, exM1] [exCollision]
      = sortByTargetStart ([exM2, exM1].filter (fun m => m.target.isSome)) :=
  ⟨by decide, (claim_C9 [exM2, exM1] [exCollision] (by decide)).1⟩
